import Mathlib

/-!
Verification of the WireGuard Prometheus exporter's scrape pipeline
(`perform_request` in `src/main.rs`) against its design specification.

Strings are embedded as `List Char` (`Str`); machine integers as `Nat`.
Code present in `src/main.rs` is translated directly; components that the
binary pulls in from sibling modules not present in the source tree
(the dump parser, snapshot merger, config parser and renderer) are
modelled from the specification, each marked `Modelled from the spec:`.
-/

namespace WgExporter

/-- Strings are embedded as lists of characters. -/
abbrev Str := List Char

/-- Convert a Lean string literal into the embedded string type. -/
def lit (s : String) : Str := s.toList

/-- Split a character list at every occurrence of `c`; the separator is
dropped and the result always has one more piece than separators. -/
def splitOnChar (c : Char) : Str → List Str
  | [] => [[]]
  | x :: xs =>
    match splitOnChar c xs with
    | [] => [[]]
    | h :: t => if x = c then [] :: h :: t else (x :: h) :: t

/-- Drop a single trailing carriage return, as Rust `str::lines` does for
lines that were terminated by a newline. -/
def stripCr (s : Str) : Str :=
  match s.getLast? with
  | some c => if c = '\r' then s.dropLast else s
  | none => s

/-- Post-process the pieces produced by splitting on newline: every piece
except the last was newline-terminated and has a trailing carriage return
stripped; a final empty piece (from a trailing newline) is dropped. -/
def processPieces : List Str → List Str
  | [] => []
  | [l] => if l = [] then [] else [l]
  | l :: ls => stripCr l :: processPieces ls

/-- Rust `str::lines`: split on newline, strip a carriage return from the
end of newline-terminated lines, and treat a final newline as a terminator
rather than a separator. -/
def rustLines (s : Str) : List Str := processPieces (splitOnChar '\n' s)

example : rustLines (lit "a\nb\n") = [lit "a", lit "b"] := by decide
example : rustLines (lit "a\r\nb") = [lit "a", lit "b"] := by decide
example : rustLines (lit "") = [] := by decide
example : rustLines (lit "\n") = [[]] := by decide

/-- Whitespace characters recognised when trimming config lines. -/
def isWsChar (c : Char) : Bool := c = ' ' || c = '\t' || c = '\r' || c = '\n'

/-- Trim whitespace from both ends of a string. -/
def trimStr (s : Str) : Str :=
  ((s.dropWhile isWsChar).reverse.dropWhile isWsChar).reverse

/-- Parse a string of decimal digits into a natural number; any other
input (empty, signs, non-digits) is rejected. -/
def parseNatStr (s : Str) : Option Nat :=
  if s ≠ [] ∧ s.all Char.isDigit then
    some (s.foldl (fun acc c => acc * 10 + (c.toNat - '0'.toNat)) 0)
  else none

/-- Join a list of strings with a separator, matching Rust `slice::join`. -/
def joinSep (sep : Str) : List Str → Str
  | [] => []
  | [s] => s
  | s :: rest => s ++ sep ++ joinSep sep rest

/-- Concatenate a list of strings. -/
def concatStr (ls : List Str) : Str := ls.foldr (· ++ ·) []

/-! ## JSON values

`serde_json` is an external crate; its behaviour on the two shapes the
exporter deserialises (a string-to-string map, and a string-to-string map
inside a peer comment) is modelled here by a small recursive-descent JSON
parser. -/

/-- A parsed JSON value.  Numbers keep their raw text: the exporter only
ever extracts string values, so the numeric value itself is never used. -/
inductive Json where
  | str (s : Str)
  | num (raw : Str)
  | tf (b : Bool)
  | null
  | arr (xs : List Json)
  | obj (kvs : List (Str × Json))

/-- JSON whitespace. -/
def isJsonWs (c : Char) : Bool := c = ' ' || c = '\t' || c = '\n' || c = '\r'

/-- Skip leading JSON whitespace. -/
def skipWs (s : Str) : Str := s.dropWhile isJsonWs

/-- Value of a hexadecimal digit. -/
def hexVal (c : Char) : Option Nat :=
  if c.isDigit then some (c.toNat - '0'.toNat)
  else if 'a' ≤ c ∧ c ≤ 'f' then some (c.toNat - 'a'.toNat + 10)
  else if 'A' ≤ c ∧ c ≤ 'F' then some (c.toNat - 'A'.toNat + 10)
  else none

/-- Parse the body of a JSON string (the opening quote already consumed),
returning the decoded string and the remaining input.  Handles the
standard escapes; raw control characters are rejected. -/
def parseJsonStr : Nat → Str → Option (Str × Str)
  | 0, _ => none
  | _ + 1, [] => none
  | fuel + 1, c :: rest =>
    if c = '"' then some ([], rest)
    else if c = '\\' then
      match rest with
      | [] => none
      | e :: rest2 =>
        if e = 'u' then
          match rest2 with
          | h1 :: h2 :: h3 :: h4 :: rest3 =>
            match hexVal h1, hexVal h2, hexVal h3, hexVal h4 with
            | some a, some b, some cc, some d =>
              match parseJsonStr fuel rest3 with
              | some (tail, rem) =>
                some (Char.ofNat (((a * 16 + b) * 16 + cc) * 16 + d) :: tail, rem)
              | none => none
            | _, _, _, _ => none
          | _ => none
        else
          match
            (if e = '"' then some '"'
             else if e = '\\' then some '\\'
             else if e = '/' then some '/'
             else if e = 'b' then some (Char.ofNat 8)
             else if e = 'f' then some (Char.ofNat 12)
             else if e = 'n' then some '\n'
             else if e = 'r' then some '\r'
             else if e = 't' then some '\t'
             else none) with
          | some d =>
            match parseJsonStr fuel rest2 with
            | some (tail, rem) => some (d :: tail, rem)
            | none => none
          | none => none
    else if c.toNat < 32 then none
    else
      match parseJsonStr fuel rest with
      | some (tail, rem) => some (c :: tail, rem)
      | none => none

/-- Parse the digits/sign/fraction/exponent tail of a JSON number starting
at the current position; returns the raw consumed text and the rest.
Accepts `-?int(.frac)?([eE][+-]?digits)?` with nonempty digit groups. -/
def parseJsonNum (s : Str) : Option (Str × Str) :=
  let (sign, s1) :=
    match s with
    | '-' :: rest => ([('-' : Char)], rest)
    | _ => ([], s)
  let intPart := s1.takeWhile Char.isDigit
  let s2 := s1.dropWhile Char.isDigit
  if intPart = [] then none
  else
    let (frac, s3) :=
      match s2 with
      | '.' :: rest =>
        let ds := rest.takeWhile Char.isDigit
        (('.' : Char) :: ds, rest.dropWhile Char.isDigit)
      | _ => ([], s2)
    if frac = [('.' : Char)] then none
    else
      match s3 with
      | e :: rest4 =>
        if e = 'e' ∨ e = 'E' then
          let (esign, s5) :=
            match rest4 with
            | '+' :: r => ([('+' : Char)], r)
            | '-' :: r => ([('-' : Char)], r)
            | _ => ([], rest4)
          let eds := s5.takeWhile Char.isDigit
          if eds = [] then none
          else some (sign ++ intPart ++ frac ++ [e] ++ esign ++ eds,
                     s5.dropWhile Char.isDigit)
        else some (sign ++ intPart ++ frac, s3)
      | [] => some (sign ++ intPart ++ frac, s3)

/-- Opening curly brace character. -/
def braceOpen : Char := Char.ofNat 123

/-- Closing curly brace character. -/
def braceClose : Char := Char.ofNat 125

mutual

/-- Parse one JSON value, skipping leading whitespace; fuelled recursion
(the callers supply fuel larger than the input length, so a well-formed
value never exhausts it). -/
def parseJsonVal : Nat → Str → Option (Json × Str)
  | 0, _ => none
  | fuel + 1, s =>
    let s1 := skipWs s
    match s1 with
    | [] => none
    | c :: rest =>
      if c = '"' then
        match parseJsonStr (rest.length + 1) rest with
        | some (sv, rem) => some (.str sv, rem)
        | none => none
      else if c = '-' ∨ c.isDigit then
        match parseJsonNum s1 with
        | some (raw, rem) => some (.num raw, rem)
        | none => none
      else if s1.take 4 = lit "true" then some (.tf true, s1.drop 4)
      else if s1.take 5 = lit "false" then some (.tf false, s1.drop 5)
      else if s1.take 4 = lit "null" then some (.null, s1.drop 4)
      else if c = '[' then
        match skipWs rest with
        | ']' :: rem => some (.arr [], rem)
        | inner => match parseJsonArrItems fuel inner [] with
          | some (xs, rem) => some (.arr xs, rem)
          | none => none
      else if c = braceOpen then
        match skipWs rest with
        | c2 :: rem =>
          if c2 = braceClose then some (.obj [], rem)
          else match parseJsonObjItems fuel (c2 :: rem) [] with
            | some (kvs, rem2) => some (.obj kvs, rem2)
            | none => none
        | [] => none
      else none

/-- Parse the comma-separated items of a JSON array up to the closing
bracket; `acc` holds the items already read. -/
def parseJsonArrItems : Nat → Str → List Json → Option (List Json × Str)
  | 0, _, _ => none
  | fuel + 1, s, acc =>
    match parseJsonVal fuel s with
    | none => none
    | some (v, rem) =>
      match skipWs rem with
      | ',' :: r2 => parseJsonArrItems fuel r2 (acc ++ [v])
      | ']' :: r2 => some (acc ++ [v], r2)
      | _ => none

/-- Parse the comma-separated `"key": value` members of a JSON object up
to the closing brace; `acc` holds the members already read. -/
def parseJsonObjItems : Nat → Str → List (Str × Json) → Option (List (Str × Json) × Str)
  | 0, _, _ => none
  | fuel + 1, s, acc =>
    match skipWs s with
    | '"' :: r =>
      match parseJsonStr (r.length + 1) r with
      | none => none
      | some (k, rem) =>
        match skipWs rem with
        | ':' :: r2 =>
          match parseJsonVal fuel r2 with
          | none => none
          | some (v, rem2) =>
            match skipWs rem2 with
            | ',' :: r3 => parseJsonObjItems fuel r3 (acc ++ [(k, v)])
            | c3 :: r3 =>
              if c3 = braceClose then some (acc ++ [(k, v)], r3) else none
            | [] => none
        | _ => none
    | _ => none

end

/-- Parse a complete JSON document: one value with only whitespace around
it. -/
def parseJsonTop (s : Str) : Option Json :=
  match parseJsonVal (2 * s.length + 8) s with
  | some (j, rest) => if skipWs rest = [] then some j else none
  | none => none

/-! ## Association-list maps

Rust `HashMap` is embedded as an association list with insert-replace
semantics; lookups compare keys byte-for-byte, exactly as `HashMap`
compares `String`/`&str` keys. -/

/-- Insert a key/value pair, replacing the existing binding for that key
in place (Rust `HashMap::insert` semantics). -/
def insertReplace {α : Type} : List (Str × α) → Str → α → List (Str × α)
  | [], k, v => [(k, v)]
  | (k0, v0) :: rest, k, v =>
    if k0 = k then (k, v) :: rest else (k0, v0) :: insertReplace rest k v

/-- Look up the value bound to a key. -/
def lookupKey {α : Type} : List (Str × α) → Str → Option α
  | [], _ => none
  | (k0, v) :: rest, k => if k0 = k then some v else lookupKey rest k

/-- Whether a key is bound in the map. -/
def hasKey {α : Type} (m : List (Str × α)) (k : Str) : Bool :=
  (lookupKey m k).isSome

/-- Collect raw key/value pairs into a map, later pairs overwriting
earlier ones with the same key (Rust `HashMap::from_iter` / serde's
deserialisation of a JSON object into a map). -/
def collectMap (ps : List (Str × Str)) : List (Str × Str) :=
  ps.foldl (fun acc p => insertReplace acc p.1 p.2) []

/-- Extract the members of a JSON object as string pairs, failing if any
value is not a JSON string. -/
def strEntries : List (Str × Json) → Option (List (Str × Str))
  | [] => some []
  | (k, .str v) :: rest => (strEntries rest).map (fun t => (k, v) :: t)
  | _ => none

/-- Interpret a JSON value as a string-to-string map: it must be an
object all of whose values are strings. -/
def asStringMap : Json → Option (List (Str × Str))
  | .obj kvs => (strEntries kvs).map collectMap
  | _ => none

/-- Modelled from the spec: the behaviour of `serde_json::from_str` at
type `HashMap<String, String>` (the crate itself is outside the source
tree).  Succeeds exactly on a well-formed JSON document whose top level is
an object with string values, yielding that object's mapping with later
duplicate keys overwriting earlier ones. -/
def serdeStringMap (s : Str) : Option (List (Str × Str)) :=
  match parseJsonTop s with
  | some j => asStringMap j
  | none => none

example : serdeStringMap (lit "\x7b\"abc\": \"Router\"\x7d") =
    some [(lit "abc", lit "Router")] := by decide
example : serdeStringMap (lit "\x7b\"a\": 1\x7d") = none := by decide
example : serdeStringMap (lit "[1, 2]") = none := by decide
example : serdeStringMap (lit "\x7b\"a\": \"x\"") = none := by decide
example : serdeStringMap (lit "\x7b\x7d") = some [] := by decide

/-! ## Error taxonomy -/

deriving instance DecidableEq for Except

/-- The typed errors the scrape pipeline can produce. `readFileFailed`
stands for an I/O error reading a metadata file; `toolFailure` stands for
a failed invocation of the external `wg` tool (spawn error or non-UTF-8
output), collapsed into one case since the pipeline treats them alike. -/
inductive ExporterError where
  | malformedRecord
  | duplicateInterface
  | invalidConfig
  | invalidPeerComment
  | invalidNameMapping
  | readFileFailed
  | toolFailure
deriving DecidableEq, Repr

/-! ## Snapshot data model -/

/-- One interface's device-level record from a dump device line. -/
structure Device where
  listenPort : Option Nat
  fwmark : Option Nat
deriving DecidableEq, Repr

/-- One peer record from a dump peer line. -/
structure Peer where
  publicKey : Str
  presharedPresent : Bool
  endpoint : Option (Str × Str)
  allowedIps : List Str
  latestHandshake : Option Nat
  rxBytes : Nat
  txBytes : Nat
  keepalive : Option Nat
deriving DecidableEq, Repr

/-- Everything known about one interface: its device record (if a device
line was seen) and its peers in encounter order. -/
structure IfaceData where
  device : Option Device
  peers : List Peer
deriving DecidableEq, Repr

/-- A snapshot maps interface names to their data; insertion order is
kept. -/
abbrev Snapshot := List (Str × IfaceData)

/-- Record a device line for an interface, creating the entry if absent. -/
def upsertDevice (snap : Snapshot) (iface : Str) (d : Device) : Snapshot :=
  match snap with
  | [] => [(iface, ⟨some d, []⟩)]
  | (n, data) :: rest =>
    if n = iface then (n, ⟨some d, data.peers⟩) :: rest
    else (n, data) :: upsertDevice rest iface d

/-- Append a peer to an interface's peer list, creating the entry if
absent. -/
def appendPeer (snap : Snapshot) (iface : Str) (p : Peer) : Snapshot :=
  match snap with
  | [] => [(iface, ⟨none, [p]⟩)]
  | (n, data) :: rest =>
    if n = iface then (n, ⟨data.device, data.peers ++ [p]⟩) :: rest
    else (n, data) :: appendPeer rest iface p

/-! ## DumpParser (modelled from the spec) -/

/-- Split an endpoint string `host:port` at its last colon; a bracketed
IPv6 host is unbracketed after the split. -/
def splitEndpoint (s : Str) : Str × Str :=
  match (splitOnChar ':' s).reverse with
  | [] => (s, [])
  | [_] => (s, [])
  | port :: hostParts =>
    let host := joinSep [':'] hostParts.reverse
    let host :=
      match host with
      | '[' :: t => if t.getLast? = some ']' then t.dropLast else host
      | _ => host
    (host, port)

/-- Modelled from the spec: parsing of one dump line by the dump parser in
the `wireguard` module, which is not in the source tree.  A 5-field line
is a device record (keys discarded); a 9-field line is a peer record with
the documented `(none)`/`off`/`0` conventions; any other field count, or
an unparsable numeric field, is a `MalformedRecord` error. -/
def parseDumpLine (snap : Snapshot) (line : Str) : Except ExporterError Snapshot :=
  match splitOnChar '\t' line with
  | [iface, _privKey, _pubKey, lp, fw] =>
    .ok (upsertDevice snap iface
      ⟨parseNatStr lp, if fw = lit "off" then none else parseNatStr fw⟩)
  | [iface, pk, psk, ep, aips, hs, rx, tx, ka] =>
    match
      (if hs = lit "0" then some none else (parseNatStr hs).map some),
      parseNatStr rx, parseNatStr tx,
      (if ka = lit "off" then some none else (parseNatStr ka).map some) with
    | some hsv, some rxv, some txv, some kav =>
      .ok (appendPeer snap iface
        ⟨pk, psk ≠ lit "none",
         if ep = lit "(none)" then none else some (splitEndpoint ep),
         if aips = lit "(none)" then [] else splitOnChar ',' aips,
         hsv, rxv, txv, kav⟩)
    | _, _, _, _ => .error .malformedRecord
  | _ => .error .malformedRecord

/-- Parse dump lines in order, threading the snapshot and stopping at the
first error. -/
def parseDumpLines : Snapshot → List Str → Except ExporterError Snapshot
  | snap, [] => .ok snap
  | snap, l :: rest =>
    match parseDumpLine snap l with
    | .ok snap2 => parseDumpLines snap2 rest
    | .error e => .error e

/-- Modelled from the spec: `WireGuard::try_from(&str)` — parse a whole
dump text, line by line, into a snapshot grouped by the leading interface
column. -/
def wireGuardTryFrom (text : Str) : Except ExporterError Snapshot :=
  parseDumpLines [] (rustLines text)

example :
    wireGuardTryFrom (lit "wg0\tprivX\tpubX\t51820\toff\nwg0\tPK1\tnone\t1.2.3.4:5000\t10.0.0.2/32,10.0.0.3/32\t1600000000\t100\t200\toff\n") =
      .ok [(lit "wg0",
        ⟨some ⟨some 51820, none⟩,
         [⟨lit "PK1", false, some (lit "1.2.3.4", lit "5000"),
           [lit "10.0.0.2/32", lit "10.0.0.3/32"], some 1600000000, 100, 200, none⟩]⟩)] := by
  decide

example : wireGuardTryFrom (lit "wg0\tonly\tthree\n") = .error .malformedRecord := by
  decide

/-! ## SnapshotMerger (modelled from the spec) -/

/-- Modelled from the spec: `WireGuard::merge` in the `wireguard` module,
which is not in the source tree.  For each interface of `inc`, insert it
into `base`; the first interface name already present yields a
`DuplicateInterface` error (the snapshot built so far is kept alongside
the error, since the caller in `main.rs` discards the error). -/
def mergeSnapshots (base : Snapshot) : Snapshot → Snapshot × Option ExporterError
  | [] => (base, none)
  | (n, d) :: rest =>
    if hasKey base n then (base, some .duplicateInterface)
    else mergeSnapshots (base ++ [(n, d)]) rest

/-! ## Peer metadata model -/

/-- Modelled from the spec: the two-case friendly-metadata variant in the
`friendly_description` module, which is not in the source tree — either a
plain display name or a structured label set. -/
inductive FriendlyDescription where
  | name (n : Str)
  | labels (kvs : List (Str × Str))
deriving DecidableEq, Repr

/-- The `PeerEntry` struct from the `wireguard_config` module (its
construction sites are visible in `main.rs`): the peer's public key, its
allowed-IPs text, and an optional friendly description. -/
structure PeerEntry where
  public_key : Str
  allowed_ips : Str
  friendly_description : Option FriendlyDescription
deriving DecidableEq, Repr

/-- The config-derived metadata table: public key to `PeerEntry`. -/
abbrev PeerTable := List (Str × PeerEntry)

/-! ## Config-derived metadata source (modelled from the spec) -/

/-- A trimmed line that looks like a section header: starts with an
opening square bracket. -/
def isHeaderLine (l : Str) : Bool :=
  match trimStr l with
  | '[' :: _ => true
  | [] => false
  | _ :: _ => false

/-- One step of section splitting: a header line opens a new section (kept
in reverse order at the head); any other line is appended to the body of
the currently open section, or dropped when no section is open yet.  A
line starting with an opening bracket but not ending with a closing one
cannot be split into sections: `InvalidConfig`. -/
def sectionStep (acc : List (Str × List Str)) (l : Str) :
    Except ExporterError (List (Str × List Str)) :=
  match trimStr l with
  | '[' :: tail =>
    if ('[' :: tail).getLast? = some ']' then .ok (('[' :: tail, []) :: acc)
    else .error .invalidConfig
  | _ =>
    match acc with
    | [] => .ok []
    | (h, body) :: tl => .ok ((h, body ++ [l]) :: tl)

/-- Fold `sectionStep` over the lines, stopping at the first error. -/
def sectionsFold : List (Str × List Str) → List Str →
    Except ExporterError (List (Str × List Str))
  | acc, [] => .ok acc
  | acc, l :: rest =>
    match sectionStep acc l with
    | .ok acc2 => sectionsFold acc2 rest
    | .error e => .error e

/-- Split config lines into sections: each section is its trimmed header
plus its body lines, in file order. -/
def splitSections (ls : List Str) : Except ExporterError (List (Str × List Str)) :=
  match sectionsFold [] ls with
  | .ok acc => .ok acc.reverse
  | .error e => .error e

/-- Split a `Key = Value` config line at its first equals sign, trimming
both sides; lines without an equals sign yield no pair. -/
def keyValOfLine (l : Str) : Option (Str × Str) :=
  match splitOnChar '=' l with
  | [] => none
  | [_] => none
  | k :: rest => some (trimStr k, trimStr (joinSep ['='] rest))

/-- The comment text of a config line: the trimmed remainder after a
leading hash mark, if the trimmed line starts with one. -/
def commentOfLine (l : Str) : Option Str :=
  match trimStr l with
  | '#' :: rest => some (trimStr rest)
  | _ => none

/-- Look up the value of the first `key = value` line with the given key
in a section body. -/
def findConfigKey (body : List Str) (key : Str) : Option Str :=
  match body with
  | [] => none
  | l :: rest =>
    match keyValOfLine l with
    | some (k, v) => if k = key then some v else findConfigKey rest key
    | none => findConfigKey rest key

/-- The first comment line of a section body, if any. -/
def firstComment (body : List Str) : Option Str :=
  match body with
  | [] => none
  | l :: rest =>
    match commentOfLine l with
    | some c => some c
    | none => firstComment rest

/-- Modelled from the spec: turn the first comment of a `[Peer]` block
into a friendly description — a comment that looks like JSON (starts with
an opening brace) must parse as a JSON object of strings and yields a
structured label set, failing with `InvalidPeerComment` otherwise; any
other non-empty comment is a plain name; no or empty comment yields no
description. -/
def friendlyOfComment (c? : Option Str) :
    Except ExporterError (Option FriendlyDescription) :=
  match c? with
  | none => .ok none
  | some c =>
    match c with
    | [] => .ok none
    | c0 :: _ =>
      if c0 = braceOpen then
        match serdeStringMap c with
        | some kvs => .ok (some (.labels kvs))
        | none => .error .invalidPeerComment
      else .ok (some (.name c))

/-- Modelled from the spec: extract the peer entry recorded by one
`[Peer]` section body — the `PublicKey` and `AllowedIPs` fields are both
required for an entry to be recorded, and the friendly description comes
from the block's first comment line. -/
def peerEntryOfSection (body : List Str) :
    Except ExporterError (Option PeerEntry) :=
  match findConfigKey body (lit "PublicKey"), findConfigKey body (lit "AllowedIPs") with
  | some pk, some aips =>
    match friendlyOfComment (firstComment body) with
    | .ok fd => .ok (some ⟨pk, aips, fd⟩)
    | .error e => .error e
  | _, _ => .ok none

/-- Fold the sections into the peer table: every `[Peer]` section that
records an entry is inserted keyed by public key, later sections
overwriting earlier ones as a `HashMap` insert does; other sections are
skipped. -/
def peerSectionsFold : PeerTable → List (Str × List Str) →
    Except ExporterError PeerTable
  | acc, [] => .ok acc
  | acc, sec :: rest =>
    if sec.1 = lit "[Peer]" then
      match peerEntryOfSection sec.2 with
      | .ok (some e) => peerSectionsFold (insertReplace acc e.public_key e) rest
      | .ok none => peerSectionsFold acc rest
      | .error e => .error e
    else peerSectionsFold acc rest

/-- Modelled from the spec: `peer_entry_hashmap_try_from` in the
`wireguard_config` module, which is not in the source tree — split the
concatenated config blobs into sections and record a peer entry for
every `[Peer]` section carrying both required fields. -/
def peerEntryHashmapTryFrom (contents : Str) : Except ExporterError PeerTable :=
  match splitSections (rustLines contents) with
  | .ok sections => peerSectionsFold [] sections
  | .error e => .error e

example :
    peerEntryHashmapTryFrom
      (lit "[Interface]\nPrivateKey = hidden\n\n[Peer]\n# Alice\nPublicKey = KEY1\nAllowedIPs = 10.0.0.0/24\n") =
      .ok [(lit "KEY1", ⟨lit "KEY1", lit "10.0.0.0/24", some (.name (lit "Alice"))⟩)] := by
  decide

example :
    peerEntryHashmapTryFrom (lit "[Peer]\n# \x7bbad json\nPublicKey = K\nAllowedIPs = x\n") =
      .error .invalidPeerComment := by
  decide

/-! ## Combining the two metadata sources (`main.rs` lines 62–98) -/

/-- The `PeerEntry` built for a name-mapping pair in `main.rs`: the public
key, an empty allowed-IPs string, and the mapped name as a plain friendly
description. -/
def entryFromName (public_key friendly_name : Str) : PeerEntry :=
  ⟨public_key, [], some (.name friendly_name)⟩

/-- The extend call `peer_entry_hashmap.extend(more_peer_names.iter().map(...))` from
`main.rs`: insert the name-mapping entries into the config-derived table,
each replacing any existing entry for its key wholesale. -/
def extendWithNames (t : PeerTable) (m : List (Str × Str)) : PeerTable :=
  m.foldl (fun acc kv => insertReplace acc kv.1 (entryFromName kv.1 kv.2)) t

/-- The `(None, Some(more_peer_names))` arm of `main.rs`: collect the
name-mapping pairs into a fresh table. -/
def tableFromNames (m : List (Str × Str)) : PeerTable :=
  extendWithNames [] m

/-- The four-way `match` of `main.rs` lines 63–98 combining the optional
config-derived table with the optional name mapping. -/
def combineTables (t? : Option PeerTable) (m? : Option (List (Str × Str))) :
    Option PeerTable :=
  match t?, m? with
  | some t, some m => some (extendWithNames t m)
  | some t, none => some t
  | none, some m => some (tableFromNames m)
  | none, none => none

/-! ## Options, environment, request -/

/-- The `Options` struct of the `options` module, with the fields
`perform_request` reads (construction is in the excluded CLI layer). -/
structure Options where
  verbose : Bool
  prepend_sudo : Bool
  separate_allowed_ips : Bool
  export_remote_ip_and_port : Bool
  export_latest_handshake_delay : Bool
  extract_names_config_files : Option (List Str)
  peer_names_file : Option Str
  interfaces : Option (List Str)
deriving DecidableEq, Repr

/-- The incoming HTTP request, which `perform_request` receives but never
reads (`_req`).  Its content is arbitrary data. -/
structure Request where
  content : List Str
deriving DecidableEq, Repr

/-- The external world as the pipeline observes it: file reads (`none`
models an I/O error), the external tool's stdout and stderr per
sudo-flag/interface invocation (`none` models a spawn failure or
non-UTF-8 output), and the render-time clock. -/
structure Env where
  readFile : Str → Option Str
  wgStdout : Bool → Str → Option Str
  wgStderr : Bool → Str → Option Str
  now : Nat

/-- What one call of `perform_request` can do: return the rendered
document, return a typed error, or hit the `panic!()` branch. -/
inductive Outcome where
  | ok (body : Str)
  | err (e : ExporterError)
  | panics
deriving DecidableEq, Repr

/-- Whether an outcome is a rendered document. -/
def Outcome.isOk : Outcome → Bool
  | .ok _ => true
  | _ => false

/-! ## The scrape pipeline (`perform_request`, `main.rs` lines 23–162) -/

/-- From `main.rs` lines 27–30: the requested interfaces, defaulting to the
single sentinel `"all"`. -/
def interfacesToHandle (options : Options) : List Str :=
  match options.interfaces with
  | some l => l
  | none => [lit "all"]

/-- Read a list of files, failing as a whole if any single read fails
(the `collect::<Result<Vec<String>, io::Error>>()` of `main.rs`). -/
def readAllFiles (env : Env) : List Str → Option (List Str)
  | [] => some []
  | f :: rest =>
    match env.readFile f with
    | none => none
    | some s =>
      match readAllFiles env rest with
      | none => none
      | some ss => some (s :: ss)

/-- From `main.rs` lines 33–44: read every configured peer-config file and
join the contents with a newline; an unset option yields nothing and a
failed read is an error. -/
def peerEntryContents (env : Env) (options : Options) :
    Except ExporterError (Option Str) :=
  match options.extract_names_config_files with
  | none => .ok none
  | some files =>
    match readAllFiles env files with
    | none => .error .readFileFailed
    | some strs => .ok (some (joinSep (lit "\n") strs))

/-- From `main.rs` lines 46–55: read the peer-names file, if configured, and
deserialise it as a JSON string-to-string object; a failed read is an
error and a failed parse is the `InvalidNameMapping` error. -/
def morePeerNames (env : Env) (options : Options) :
    Except ExporterError (Option (List (Str × Str))) :=
  match options.peer_names_file with
  | none => .ok none
  | some f =>
    match env.readFile f with
    | none => .error .readFileFailed
    | some cfg =>
      match serdeStringMap cfg with
      | none => .error .invalidNameMapping
      | some m => .ok (some m)

/-- From `main.rs` lines 57–60: parse the joined config contents, when
present, into the config-derived table. -/
def peerEntryHashmapStep (contents? : Option Str) :
    Except ExporterError (Option PeerTable) :=
  match contents? with
  | none => .ok none
  | some c =>
    match peerEntryHashmapTryFrom c with
    | .ok t => .ok (some t)
    | .error e => .error e

/-- From `main.rs` lines 138–147: for a non-`"all"` interface, prepend
`<interface>\t` to every line of the tool's stdout, rebuilding the text
with a trailing newline per line; for `"all"`, pass the stdout through
unchanged. -/
def injectInterface (iface : Str) (text : Str) : Str :=
  (rustLines text).foldl (fun acc l => acc ++ iface ++ ['\t'] ++ l ++ ['\n']) []

/-- The text handed to the dump parser for one invocation. -/
def parserInput (iface : Str) (text : Str) : Str :=
  if iface ≠ lit "all" then injectInterface iface text else text

/-! ## MetricsRenderer (modelled from the spec) -/

/-- Escape one character per the Prometheus exposition rules. -/
def escapeLabelChar (c : Char) : Str :=
  if c = '\\' then ['\\', '\\']
  else if c = '"' then ['\\', '"']
  else if c = '\n' then ['\\', 'n']
  else [c]

/-- Escape a label value: backslash, double quote and newline. -/
def escapeLabel (s : Str) : Str :=
  s.foldr (fun c acc => escapeLabelChar c ++ acc) []

/-- Decimal rendering of a natural number. -/
def natToStr (n : Nat) : Str := (toString n).toList

/-- One exposition line: metric name, label set, sample value. -/
def metricLine (name : Str) (labels : List (Str × Str)) (value : Str) : Str :=
  name ++ [braceOpen]
    ++ joinSep [','] (labels.map (fun kv => kv.1 ++ lit "=\"" ++ escapeLabel kv.2 ++ lit "\""))
    ++ [braceClose] ++ [' '] ++ value ++ ['\n']

/-- Look up a peer's metadata in the optional resolved table. -/
def lookupMeta (t? : Option PeerTable) (pk : Str) : Option PeerEntry :=
  match t? with
  | none => none
  | some t => lookupKey t pk

/-- The labels a peer's resolved friendly metadata contributes: a plain
name becomes one `friendly_name` label, a structured set contributes its
pairs verbatim, and absent metadata contributes nothing. -/
def friendlyLabels (t? : Option PeerTable) (pk : Str) : List (Str × Str) :=
  match lookupMeta t? pk with
  | some e =>
    match e.friendly_description with
    | some (.name n) => [(lit "friendly_name", n)]
    | some (.labels kvs) => kvs
    | none => []
  | none => []

/-- Modelled from the spec: render one peer — the constant-1 info line
with built-in and friendly labels, the allowed-IPs either embedded or as
separate zero-value lines, byte counters, the raw handshake timestamp,
and (when enabled and a handshake exists) the handshake delay. -/
def renderPeer (options : Options) (now : Nat) (t? : Option PeerTable)
    (iface : Str) (p : Peer) : Str :=
  let base := [(lit "interface", iface), (lit "public_key", p.publicKey)]
  let infoLabels := base ++ friendlyLabels t? p.publicKey
    ++ (if options.separate_allowed_ips then []
        else [(lit "allowed_ips", joinSep [','] p.allowedIps)])
    ++ (if options.export_remote_ip_and_port then
          match p.endpoint with
          | some hp => [(lit "remote_ip", hp.1), (lit "remote_port", hp.2)]
          | none => []
        else [])
  metricLine (lit "wireguard_peer_info") infoLabels (lit "1")
    ++ (if options.separate_allowed_ips then
          concatStr (p.allowedIps.map (fun ip =>
            metricLine (lit "wireguard_peer_allowed_ips") (base ++ [(lit "allowed_ip", ip)]) (lit "0")))
        else [])
    ++ metricLine (lit "wireguard_sent_bytes_total") base (natToStr p.txBytes)
    ++ metricLine (lit "wireguard_received_bytes_total") base (natToStr p.rxBytes)
    ++ metricLine (lit "wireguard_latest_handshake_seconds") base
        (natToStr (p.latestHandshake.getD 0))
    ++ (if options.export_latest_handshake_delay then
          match p.latestHandshake with
          | some h => metricLine (lit "wireguard_latest_handshake_delay_seconds") base
              (natToStr (now - h))
          | none => []
        else [])

/-- Modelled from the spec: `WireGuard::render_with_names` in the
`wireguard` module, which is not in the source tree — walk the snapshot
in insertion order and render every peer against the resolved metadata
table under the active options. -/
def renderWithNames (wg : Snapshot) (t? : Option PeerTable) (options : Options)
    (now : Nat) : Str :=
  concatStr (wg.map (fun e => concatStr (e.2.peers.map (renderPeer options now t? e.1))))

/-! ## The per-interface loop and the whole request -/

/-- From `main.rs` lines 102–155: for each requested interface, run the
external tool (spawn or UTF-8 failure aborts the scrape), normalise its
stdout, parse it, and fold it into the accumulator — the first iteration
seeds the accumulator, later ones call `merge`, whose result is
discarded by the caller (`wg_accumulator.merge(&wg);` has no `?`). -/
def scrapeLoop (env : Env) (options : Options) :
    List Str → Option Snapshot → Except ExporterError (Option Snapshot)
  | [], acc => .ok acc
  | i :: rest, acc =>
    match env.wgStdout options.prepend_sudo i with
    | none => .error .toolFailure
    | some out =>
      match env.wgStderr options.prepend_sudo i with
      | none => .error .toolFailure
      | some _errOut =>
        match acc with
        | some acc0 =>
          match wireGuardTryFrom (parserInput i out) with
          | .ok wg => scrapeLoop env options rest (some (mergeSnapshots acc0 wg).1)
          | .error e => .error e
        | none =>
          match wireGuardTryFrom (parserInput i out) with
          | .ok wg => scrapeLoop env options rest (some wg)
          | .error e => .error e

/-- The body of `perform_request` up to the final accumulator match: metadata reads
and parses in source order, then the interface loop; `ok none` means the
loop never seeded the accumulator. -/
def performRequestCore (env : Env) (options : Options) :
    Except ExporterError (Option Str) :=
  match peerEntryContents env options with
  | .error e => .error e
  | .ok contents? =>
    match morePeerNames env options with
    | .error e => .error e
    | .ok names? =>
      match peerEntryHashmapStep contents? with
      | .error e => .error e
      | .ok table? =>
        match scrapeLoop env options (interfacesToHandle options) none with
        | .error e => .error e
        | .ok none => .ok none
        | .ok (some wg) =>
          .ok (some (renderWithNames wg (combineTables table? names?) options env.now))

/-- The whole of `perform_request` (`main.rs` lines 23–162): the request itself is
never read; an empty accumulator after the loop hits the `panic!()`
branch. -/
def performRequest (_req : Request) (env : Env) (options : Options) : Outcome :=
  match performRequestCore env options with
  | .error e => .err e
  | .ok (some body) => .ok body
  | .ok none => .panics

/-! ## Helper lemmas -/

theorem concatStr_nil : concatStr [] = [] := rfl

theorem concatStr_cons (x : Str) (xs : List Str) :
    concatStr (x :: xs) = x ++ concatStr xs := rfl

theorem foldl_inject (iface : Str) (ls : List Str) (acc : Str) :
    ls.foldl (fun a l => a ++ iface ++ ['\t'] ++ l ++ ['\n']) acc
      = acc ++ concatStr (ls.map (fun l => iface ++ ['\t'] ++ l ++ ['\n'])) := by
  induction ls generalizing acc with
  | nil => simp [concatStr]
  | cons x xs ih =>
    rw [List.foldl_cons, ih, List.map_cons, concatStr_cons]
    simp [List.append_assoc]

theorem mem_insertReplace {α : Type} (l : List (Str × α)) (k : Str) (v : α)
    (p : Str × α) (hp : p ∈ insertReplace l k v) : p ∈ l ∨ p = (k, v) := by
  induction l with
  | nil => simpa [insertReplace] using hp
  | cons q rest ih =>
    obtain ⟨k0, v0⟩ := q
    by_cases hk : k0 = k
    · rw [insertReplace, if_pos hk] at hp
      rcases List.mem_cons.mp hp with h | h
      · exact Or.inr h
      · exact Or.inl (List.mem_cons_of_mem _ h)
    · rw [insertReplace, if_neg hk] at hp
      rcases List.mem_cons.mp hp with h | h
      · exact Or.inl (h ▸ List.mem_cons_self _ _)
      · rcases ih h with h2 | h2
        · exact Or.inl (List.mem_cons_of_mem _ h2)
        · exact Or.inr h2

theorem lookup_insertReplace_same {α : Type} (l : List (Str × α)) (k : Str) (v : α) :
    lookupKey (insertReplace l k v) k = some v := by
  induction l with
  | nil => simp [insertReplace, lookupKey]
  | cons q rest ih =>
    obtain ⟨k0, v0⟩ := q
    by_cases hk : k0 = k
    · rw [insertReplace, if_pos hk, lookupKey, if_pos rfl]
    · rw [insertReplace, if_neg hk, lookupKey, if_neg hk, ih]

theorem lookup_insertReplace_other {α : Type} (l : List (Str × α)) (k' k : Str) (v : α)
    (h : k' ≠ k) : lookupKey (insertReplace l k' v) k = lookupKey l k := by
  induction l with
  | nil => simp [insertReplace, lookupKey, if_neg h]
  | cons q rest ih =>
    obtain ⟨k0, v0⟩ := q
    by_cases hk : k0 = k'
    · subst hk
      rw [insertReplace, if_pos rfl, lookupKey, if_neg h, lookupKey, if_neg h]
    · rw [insertReplace, if_neg hk, lookupKey, lookupKey]
      by_cases h0 : k0 = k
      · rw [if_pos h0, if_pos h0]
      · rw [if_neg h0, if_neg h0, ih]

theorem hasKey_append_left {α : Type} (l1 l2 : List (Str × α)) (k : Str)
    (h : hasKey l1 k = true) : hasKey (l1 ++ l2) k = true := by
  induction l1 with
  | nil => simp [hasKey, lookupKey] at h
  | cons q rest ih =>
    obtain ⟨k0, v0⟩ := q
    by_cases hk : k0 = k
    · simp [hasKey, lookupKey, hk]
    · simp only [hasKey, lookupKey, if_neg hk] at h
      simp only [List.cons_append, hasKey, lookupKey, if_neg hk]
      exact ih h

theorem extendWithNames_nil (t : PeerTable) : extendWithNames t [] = t := rfl

theorem extendWithNames_cons (t : PeerTable) (kv : Str × Str) (rest : List (Str × Str)) :
    extendWithNames t (kv :: rest)
      = extendWithNames (insertReplace t kv.1 (entryFromName kv.1 kv.2)) rest := rfl

theorem mem_extendWithNames (t : PeerTable) (m : List (Str × Str)) (p : Str × PeerEntry)
    (hp : p ∈ extendWithNames t m) :
    p ∈ t ∨ ∃ kv ∈ m, p = (kv.1, entryFromName kv.1 kv.2) := by
  induction m generalizing t with
  | nil => exact Or.inl hp
  | cons kv rest ih =>
    rw [extendWithNames_cons] at hp
    rcases ih _ hp with h | ⟨kv', hkv', hpv⟩
    · rcases mem_insertReplace _ _ _ _ h with h2 | h2
      · exact Or.inl h2
      · exact Or.inr ⟨kv, List.mem_cons_self _ _, h2⟩
    · exact Or.inr ⟨kv', List.mem_cons_of_mem _ hkv', hpv⟩

theorem lookup_extendWithNames_not_mem (t : PeerTable) (m : List (Str × Str)) (k : Str)
    (h : ∀ kv ∈ m, kv.1 ≠ k) :
    lookupKey (extendWithNames t m) k = lookupKey t k := by
  induction m generalizing t with
  | nil => rfl
  | cons kv rest ih =>
    rw [extendWithNames_cons,
      ih _ (fun kv' hkv' => h kv' (List.mem_cons_of_mem _ hkv')),
      lookup_insertReplace_other _ _ _ _ (h kv (List.mem_cons_self _ _))]

theorem lookup_extendWithNames_mem (t : PeerTable) (m : List (Str × Str)) (k n : Str)
    (hnd : (m.map Prod.fst).Nodup) (hm : (k, n) ∈ m) :
    lookupKey (extendWithNames t m) k = some (entryFromName k n) := by
  induction m generalizing t with
  | nil => cases hm
  | cons kv rest ih =>
    simp only [List.map_cons, List.nodup_cons] at hnd
    rw [extendWithNames_cons]
    rcases List.mem_cons.mp hm with h | h
    · have hk : kv.1 = k := by rw [← h]
      have hnotin : ∀ kv' ∈ rest, kv'.1 ≠ k := by
        intro kv' hkv' heq
        have h1 : kv'.1 ∈ rest.map Prod.fst := List.mem_map_of_mem _ hkv'
        rw [heq, ← hk] at h1
        exact hnd.1 h1
      have hn : kv.2 = n := by rw [← h]
      rw [lookup_extendWithNames_not_mem _ _ _ hnotin, hk, hn,
        lookup_insertReplace_same]
    · exact ih _ hnd.2 h

/-! ## Error-classification lemmas -/

theorem parseDumpLine_error (snap : Snapshot) (l : Str) (e : ExporterError)
    (h : parseDumpLine snap l = .error e) : e = .malformedRecord := by
  unfold parseDumpLine at h
  split at h
  · simp at h
  · split at h <;> simp_all
  · simp only [Except.error.injEq] at h
    exact h.symm

theorem parseDumpLines_error (ls : List Str) (snap : Snapshot) (e : ExporterError)
    (h : parseDumpLines snap ls = .error e) : e = .malformedRecord := by
  induction ls generalizing snap with
  | nil => simp [parseDumpLines] at h
  | cons l rest ih =>
    rw [parseDumpLines] at h
    cases hp : parseDumpLine snap l with
    | ok snap2 =>
      rw [hp] at h
      exact ih snap2 h
    | error e0 =>
      rw [hp] at h
      simp only [Except.error.injEq] at h
      exact h ▸ parseDumpLine_error snap l e0 hp

theorem wireGuardTryFrom_error (t : Str) (e : ExporterError)
    (h : wireGuardTryFrom t = .error e) : e = .malformedRecord :=
  parseDumpLines_error (rustLines t) [] e h

theorem scrapeLoop_error (env : Env) (options : Options) (ifaces : List Str)
    (acc : Option Snapshot) (e : ExporterError)
    (h : scrapeLoop env options ifaces acc = .error e) :
    e = .toolFailure ∨ e = .malformedRecord := by
  induction ifaces generalizing acc with
  | nil => simp [scrapeLoop] at h
  | cons i rest ih =>
    rw [scrapeLoop] at h
    cases hs : env.wgStdout options.prepend_sudo i with
    | none => simp only [hs, Except.error.injEq] at h; exact Or.inl h.symm
    | some out =>
      cases he : env.wgStderr options.prepend_sudo i with
      | none => simp only [hs, he, Except.error.injEq] at h; exact Or.inl h.symm
      | some eo =>
        simp only [hs, he] at h
        cases acc with
        | some acc0 =>
          cases hw : wireGuardTryFrom (parserInput i out) with
          | ok wg =>
            rw [hw] at h
            exact ih _ h
          | error e0 =>
            rw [hw] at h
            simp only [Except.error.injEq] at h
            exact Or.inr (h ▸ wireGuardTryFrom_error _ e0 hw)
        | none =>
          cases hw : wireGuardTryFrom (parserInput i out) with
          | ok wg =>
            rw [hw] at h
            exact ih _ h
          | error e0 =>
            rw [hw] at h
            simp only [Except.error.injEq] at h
            exact Or.inr (h ▸ wireGuardTryFrom_error _ e0 hw)

theorem scrapeLoop_ne_ok_none (env : Env) (options : Options) (ifaces : List Str)
    (acc : Option Snapshot) (hne : ifaces ≠ [] ∨ acc.isSome = true) :
    scrapeLoop env options ifaces acc ≠ .ok none := by
  induction ifaces generalizing acc with
  | nil =>
    rcases hne with h | h
    · exact absurd rfl h
    · cases acc with
      | none => simp at h
      | some a => simp [scrapeLoop]
  | cons i rest ih =>
    intro h
    rw [scrapeLoop] at h
    cases hs : env.wgStdout options.prepend_sudo i with
    | none => simp [hs] at h
    | some out =>
      cases he : env.wgStderr options.prepend_sudo i with
      | none => simp [hs, he] at h
      | some eo =>
        simp only [hs, he] at h
        cases acc with
        | some acc0 =>
          cases hw : wireGuardTryFrom (parserInput i out) with
          | ok wg =>
            rw [hw] at h
            exact ih (some (mergeSnapshots acc0 wg).1) (Or.inr rfl) h
          | error e0 => rw [hw] at h; cases h
        | none =>
          cases hw : wireGuardTryFrom (parserInput i out) with
          | ok wg =>
            rw [hw] at h
            exact ih (some wg) (Or.inr rfl) h
          | error e0 => rw [hw] at h; cases h

theorem peerEntryContents_error (env : Env) (options : Options) (e : ExporterError)
    (h : peerEntryContents env options = .error e) : e = .readFileFailed := by
  unfold peerEntryContents at h
  split at h
  · cases h
  · split at h <;> simp_all

theorem morePeerNames_error (env : Env) (options : Options) (e : ExporterError)
    (h : morePeerNames env options = .error e) :
    e = .readFileFailed ∨ e = .invalidNameMapping := by
  unfold morePeerNames at h
  split at h
  · cases h
  · split at h
    · simp_all
    · split at h <;> simp_all

theorem friendlyOfComment_error (c? : Option Str) (e : ExporterError)
    (h : friendlyOfComment c? = .error e) : e = .invalidPeerComment := by
  unfold friendlyOfComment at h
  split at h
  · cases h
  · split at h
    · cases h
    · split at h
      · split at h <;> simp_all
      · cases h

theorem peerEntryOfSection_error (body : List Str) (e : ExporterError)
    (h : peerEntryOfSection body = .error e) : e = .invalidPeerComment := by
  unfold peerEntryOfSection at h
  split at h
  · split at h
    · cases h
    · rename_i heq
      simp only [Except.error.injEq] at h
      exact h ▸ friendlyOfComment_error _ _ heq
  · cases h

theorem sectionStep_error (acc : List (Str × List Str)) (l : Str) (e : ExporterError)
    (h : sectionStep acc l = .error e) : e = .invalidConfig := by
  unfold sectionStep at h
  split at h
  · split at h <;> simp_all
  · split at h <;> simp_all

theorem sectionsFold_error (ls : List Str) (acc : List (Str × List Str))
    (e : ExporterError) (h : sectionsFold acc ls = .error e) : e = .invalidConfig := by
  induction ls generalizing acc with
  | nil => simp [sectionsFold] at h
  | cons l rest ih =>
    rw [sectionsFold] at h
    cases hs : sectionStep acc l with
    | ok acc2 =>
      rw [hs] at h
      exact ih acc2 h
    | error e0 =>
      rw [hs] at h
      simp only [Except.error.injEq] at h
      exact h ▸ sectionStep_error acc l e0 hs

theorem splitSections_error (ls : List Str) (e : ExporterError)
    (h : splitSections ls = .error e) : e = .invalidConfig := by
  unfold splitSections at h
  cases hs : sectionsFold [] ls with
  | ok acc => rw [hs] at h; cases h
  | error e0 =>
    rw [hs] at h
    simp only [Except.error.injEq] at h
    exact h ▸ sectionsFold_error ls [] e0 hs

theorem peerSectionsFold_error (secs : List (Str × List Str)) (acc : PeerTable)
    (e : ExporterError) (h : peerSectionsFold acc secs = .error e) :
    e = .invalidPeerComment := by
  induction secs generalizing acc with
  | nil => simp [peerSectionsFold] at h
  | cons sec rest ih =>
    rw [peerSectionsFold] at h
    split at h
    · cases hp : peerEntryOfSection sec.2 with
      | ok o =>
        rw [hp] at h
        cases o with
        | some pe => exact ih _ h
        | none => exact ih _ h
      | error e0 =>
        rw [hp] at h
        simp only [Except.error.injEq] at h
        exact h ▸ peerEntryOfSection_error _ e0 hp
    · exact ih _ h

theorem peerEntryHashmapTryFrom_error (c : Str) (e : ExporterError)
    (h : peerEntryHashmapTryFrom c = .error e) :
    e = .invalidConfig ∨ e = .invalidPeerComment := by
  unfold peerEntryHashmapTryFrom at h
  cases hs : splitSections (rustLines c) with
  | ok secs =>
    rw [hs] at h
    exact Or.inr (peerSectionsFold_error secs [] e h)
  | error e0 =>
    rw [hs] at h
    simp only [Except.error.injEq] at h
    exact Or.inl (h ▸ splitSections_error _ e0 hs)

theorem peerEntryHashmapStep_error (c? : Option Str) (e : ExporterError)
    (h : peerEntryHashmapStep c? = .error e) :
    e = .invalidConfig ∨ e = .invalidPeerComment := by
  unfold peerEntryHashmapStep at h
  split at h
  · cases h
  · split at h
    · cases h
    · rename_i heq
      simp only [Except.error.injEq] at h
      exact h ▸ peerEntryHashmapTryFrom_error _ _ heq

theorem performRequestCore_error (env : Env) (options : Options) (e : ExporterError)
    (h : performRequestCore env options = .error e) :
    e = .readFileFailed ∨ e = .invalidNameMapping ∨ e = .invalidConfig ∨
      e = .invalidPeerComment ∨ e = .toolFailure ∨ e = .malformedRecord := by
  unfold performRequestCore at h
  cases h1 : peerEntryContents env options with
  | error e1 =>
    simp only [h1, Except.error.injEq] at h
    exact Or.inl (h ▸ peerEntryContents_error env options e1 h1)
  | ok c? =>
    simp only [h1] at h
    cases h2 : morePeerNames env options with
    | error e2 =>
      simp only [h2, Except.error.injEq] at h
      rcases morePeerNames_error env options e2 h2 with h' | h'
      · exact Or.inl (h ▸ h')
      · exact Or.inr (Or.inl (h ▸ h'))
    | ok n? =>
      simp only [h2] at h
      cases h3 : peerEntryHashmapStep c? with
      | error e3 =>
        simp only [h3, Except.error.injEq] at h
        rcases peerEntryHashmapStep_error c? e3 h3 with h' | h'
        · exact Or.inr (Or.inr (Or.inl (h ▸ h')))
        · exact Or.inr (Or.inr (Or.inr (Or.inl (h ▸ h'))))
      | ok t? =>
        simp only [h3] at h
        cases h4 : scrapeLoop env options (interfacesToHandle options) none with
        | error e4 =>
          simp only [h4, Except.error.injEq] at h
          rcases scrapeLoop_error env options _ none e4 h4 with h' | h'
          · exact Or.inr (Or.inr (Or.inr (Or.inr (Or.inl (h ▸ h')))))
          · exact Or.inr (Or.inr (Or.inr (Or.inr (Or.inr (h ▸ h')))))
        | ok acc =>
          simp only [h4] at h
          cases acc with
          | none => cases h
          | some wg => cases h

theorem performRequest_err_core (req : Request) (env : Env) (options : Options)
    (e : ExporterError) (h : performRequest req env options = .err e) :
    performRequestCore env options = .error e := by
  unfold performRequest at h
  cases hc : performRequestCore env options with
  | error e0 =>
    simp only [hc, Outcome.err.injEq] at h
    subst h
    rfl
  | ok o =>
    cases o with
    | some b => simp only [hc] at h; exact Outcome.noConfusion h
    | none => simp only [hc] at h; exact Outcome.noConfusion h

/-! ## C2: duplicate-interface merging -/

/-- C2 (amended): merging two snapshots that share an interface name
always yields the `DuplicateInterface` error, regardless of whether the
shared interface's contents are equal — but `perform_request` discards
the merger's result (`wg_accumulator.merge(&wg);` has no `?`), so the
scrape never returns that error. -/
theorem c2_merge_duplicate_amended :
    (∀ (base inc : Snapshot) (n : Str), hasKey base n = true → hasKey inc n = true →
      (mergeSnapshots base inc).2 = some .duplicateInterface) ∧
    (∀ (req : Request) (env : Env) (options : Options),
      performRequest req env options ≠ .err .duplicateInterface) := by
  constructor
  · intro base inc n hb hi
    induction inc generalizing base with
    | nil => simp [hasKey, lookupKey] at hi
    | cons q rest ih =>
      obtain ⟨n0, d0⟩ := q
      rw [mergeSnapshots]
      by_cases h0 : hasKey base n0 = true
      · rw [if_pos h0]
      · rw [if_neg h0]
        have hn0 : n0 ≠ n := fun he => h0 (he ▸ hb)
        have hrest : hasKey rest n = true := by
          simp only [hasKey, lookupKey, if_neg hn0] at hi
          exact hi
        exact ih (base ++ [(n0, d0)]) (hasKey_append_left base [(n0, d0)] n hb) hrest
  · intro req env options h
    have hcore := performRequest_err_core req env options .duplicateInterface h
    rcases performRequestCore_error env options .duplicateInterface hcore
      with h' | h' | h' | h' | h' | h' <;> cases h'

theorem c2_merge_duplicate_witness :
    (mergeSnapshots [(lit "wga", ⟨none, []⟩)] [(lit "wga", ⟨none, []⟩)]).2
      = some .duplicateInterface ∧
    performRequest ⟨[]⟩
        ⟨fun _ => none, fun _ _ => some [], fun _ _ => some [], 0⟩
        ⟨false, false, false, false, false, none, none, some [lit "all"]⟩
      ≠ .err .duplicateInterface :=
  ⟨c2_merge_duplicate_amended.1 [(lit "wga", ⟨none, []⟩)] [(lit "wga", ⟨none, []⟩)]
      (lit "wga") (by decide) (by decide),
   c2_merge_duplicate_amended.2 ⟨[]⟩
     ⟨fun _ => none, fun _ _ => some [], fun _ _ => some [], 0⟩
     ⟨false, false, false, false, false, none, none, some [lit "all"]⟩⟩

/-- C2 counterexample: with interfaces `["wg0", "wg0"]` the same
interface is scraped twice, the second merge fails with
`DuplicateInterface` — yet the scrape returns rendered output, not that
error, because the merge result is discarded. -/
theorem c2_error_not_returned_counterexample :
    (mergeSnapshots [(lit "wg0", ⟨some ⟨some 51820, none⟩, []⟩)]
        [(lit "wg0", ⟨some ⟨some 51820, none⟩, []⟩)]).2
      = some .duplicateInterface ∧
    (performRequest ⟨[]⟩
        ⟨fun _ => none, fun _ _ => some (lit "priv\tpub\t51820\toff\n"),
         fun _ _ => some [], 0⟩
        ⟨false, false, false, false, false, none, none,
         some [lit "wg0", lit "wg0"]⟩).isOk = true := by
  exact ⟨by decide, by decide⟩

/-! ## C3: failures abort the scrape with a typed error -/

/-- C3 (amended): every failing parsing or resolution step — config-file
read, name-mapping read or parse, config parse, tool invocation or dump
parse — makes `perform_request` return exactly that typed error, with no
output text; a failing merge, by contrast, is discarded and does not stop
the scrape. -/
theorem c3_error_propagation_amended :
    (∀ (req : Request) (env : Env) (options : Options) (e : ExporterError),
      peerEntryContents env options = .error e →
        performRequest req env options = .err e) ∧
    (∀ (req : Request) (env : Env) (options : Options) (e : ExporterError)
        (c? : Option Str),
      peerEntryContents env options = .ok c? →
      morePeerNames env options = .error e →
        performRequest req env options = .err e) ∧
    (∀ (req : Request) (env : Env) (options : Options) (e : ExporterError)
        (c? : Option Str) (n? : Option (List (Str × Str))),
      peerEntryContents env options = .ok c? →
      morePeerNames env options = .ok n? →
      peerEntryHashmapStep c? = .error e →
        performRequest req env options = .err e) ∧
    (∀ (req : Request) (env : Env) (options : Options) (e : ExporterError)
        (c? : Option Str) (n? : Option (List (Str × Str))) (t? : Option PeerTable),
      peerEntryContents env options = .ok c? →
      morePeerNames env options = .ok n? →
      peerEntryHashmapStep c? = .ok t? →
      scrapeLoop env options (interfacesToHandle options) none = .error e →
        performRequest req env options = .err e) := by
  refine ⟨?_, ?_, ?_, ?_⟩
  · intro req env options e h1
    unfold performRequest performRequestCore
    simp only [h1]
  · intro req env options e c? h1 h2
    unfold performRequest performRequestCore
    simp only [h1, h2]
  · intro req env options e c? n? h1 h2 h3
    unfold performRequest performRequestCore
    simp only [h1, h2, h3]
  · intro req env options e c? n? t? h1 h2 h3 h4
    unfold performRequest performRequestCore
    simp only [h1, h2, h3, h4]

theorem c3_error_propagation_witness :
    performRequest ⟨[]⟩
        ⟨fun f => if f = lit "names.json" then some (lit "oops") else none,
         fun _ _ => some [], fun _ _ => some [], 0⟩
        ⟨false, false, false, false, false, none, some (lit "names.json"),
         some [lit "all"]⟩
      = .err .invalidNameMapping :=
  c3_error_propagation_amended.2.1 ⟨[]⟩
    ⟨fun f => if f = lit "names.json" then some (lit "oops") else none,
     fun _ _ => some [], fun _ _ => some [], 0⟩
    ⟨false, false, false, false, false, none, some (lit "names.json"),
     some [lit "all"]⟩
    .invalidNameMapping none (by decide) (by decide)

/-- C3 counterexample: a scrape in which the merging step fails (the same
interface queried twice) still returns a full rendered document, so "any
parsing, merging, or resolution step fails implies a typed error and no
output" does not hold for the merging step. -/
theorem c3_merge_failure_still_outputs_counterexample :
    (mergeSnapshots [(lit "vpn1", ⟨some ⟨some 111, none⟩, []⟩)]
        [(lit "vpn1", ⟨some ⟨some 111, none⟩, []⟩)]).2
      = some .duplicateInterface ∧
    (performRequest ⟨[]⟩
        ⟨fun _ => none, fun _ _ => some (lit "pk\tpb\t111\toff\n"),
         fun _ _ => some [], 7⟩
        ⟨false, true, false, false, false, none, none,
         some [lit "vpn1", lit "vpn1"]⟩).isOk = true := by
  exact ⟨by decide, by decide⟩

theorem performRequest_panics_core (req : Request) (env : Env) (options : Options)
    (h : performRequest req env options = .panics) :
    performRequestCore env options = .ok none := by
  unfold performRequest at h
  cases hc : performRequestCore env options with
  | error e0 => simp only [hc] at h; exact Outcome.noConfusion h
  | ok o =>
    cases o with
    | some b => simp only [hc] at h; exact Outcome.noConfusion h
    | none => rfl

theorem performRequestCore_ok_none_loop (env : Env) (options : Options)
    (h : performRequestCore env options = .ok none) :
    scrapeLoop env options (interfacesToHandle options) none = .ok none := by
  unfold performRequestCore at h
  cases h1 : peerEntryContents env options with
  | error e1 => simp only [h1] at h; exact Except.noConfusion h
  | ok c? =>
    simp only [h1] at h
    cases h2 : morePeerNames env options with
    | error e2 => simp only [h2] at h; exact Except.noConfusion h
    | ok n? =>
      simp only [h2] at h
      cases h3 : peerEntryHashmapStep c? with
      | error e3 => simp only [h3] at h; exact Except.noConfusion h
      | ok t? =>
        simp only [h3] at h
        cases h4 : scrapeLoop env options (interfacesToHandle options) none with
        | error e4 => simp only [h4] at h; exact Except.noConfusion h
        | ok acc =>
          simp only [h4] at h
          cases acc with
          | some wg => exact Option.noConfusion (Except.ok.inj h)
          | none => rfl

/-! ## C5: name-mapping source parsing -/

/-- C5: parsing the configured name-mapping file fails with
`InvalidNameMapping` whenever the text is malformed JSON or its top
level is not a JSON object with string values; otherwise it yields
exactly that object's key-to-name mapping. -/
theorem c5_name_mapping_parse (env : Env) (options : Options) (f s : Str)
    (hf : options.peer_names_file = some f) (hs : env.readFile f = some s) :
    ((parseJsonTop s = none ∨ ∃ j, parseJsonTop s = some j ∧ asStringMap j = none) →
      morePeerNames env options = .error .invalidNameMapping) ∧
    (∀ (j : Json) (m : List (Str × Str)),
      parseJsonTop s = some j → asStringMap j = some m →
      morePeerNames env options = .ok (some m)) := by
  constructor
  · intro h
    have hnone : serdeStringMap s = none := by
      unfold serdeStringMap
      rcases h with h | ⟨j, hj, hm⟩
      · simp only [h]
      · simp only [hj, hm]
    unfold morePeerNames
    simp only [hf, hs, hnone]
  · intro j m hj hm
    have hsome : serdeStringMap s = some m := by
      unfold serdeStringMap
      simp only [hj]
      exact hm
    unfold morePeerNames
    simp only [hf, hs, hsome]

theorem c5_name_mapping_parse_witness :
    morePeerNames
        ⟨fun f => if f = lit "nm" then some (lit "\x7b\"abc\": \"Router\"\x7d") else none,
         fun _ _ => some [], fun _ _ => some [], 0⟩
        ⟨false, false, false, false, false, none, some (lit "nm"), none⟩
      = .ok (some [(lit "abc", lit "Router")]) ∧
    morePeerNames
        ⟨fun f => if f = lit "nm" then some (lit "[1]") else none,
         fun _ _ => some [], fun _ _ => some [], 0⟩
        ⟨false, false, false, false, false, none, some (lit "nm"), none⟩
      = .error .invalidNameMapping :=
  ⟨(c5_name_mapping_parse
      ⟨fun f => if f = lit "nm" then some (lit "\x7b\"abc\": \"Router\"\x7d") else none,
       fun _ _ => some [], fun _ _ => some [], 0⟩
      ⟨false, false, false, false, false, none, some (lit "nm"), none⟩
      (lit "nm") (lit "\x7b\"abc\": \"Router\"\x7d") rfl (by decide)).2
      (Json.obj [(lit "abc", Json.str (lit "Router"))]) [(lit "abc", lit "Router")]
      (by rfl) (by rfl),
   (c5_name_mapping_parse
      ⟨fun f => if f = lit "nm" then some (lit "[1]") else none,
       fun _ _ => some [], fun _ _ => some [], 0⟩
      ⟨false, false, false, false, false, none, some (lit "nm"), none⟩
      (lit "nm") (lit "[1]") rfl (by decide)).1
      (Or.inr ⟨Json.arr [Json.num (lit "1")], by rfl, by rfl⟩)⟩

/-! ## C7: no metadata sources configured -/

/-- C7: with neither metadata source configured, resolution yields no
metadata table, the scrape fails only for tool or dump-parse reasons
(never a metadata reason), rendering proceeds on the resolved `none`
table, and that table renders exactly as an empty mapping — built-in
labels only. -/
theorem c7_no_metadata_sources (req : Request) (env : Env) (options : Options)
    (h1 : options.extract_names_config_files = none)
    (h2 : options.peer_names_file = none) :
    combineTables none none = none ∧
    (∀ e, performRequest req env options = .err e →
      e = .toolFailure ∨ e = .malformedRecord) ∧
    (∀ wg, scrapeLoop env options (interfacesToHandle options) none = .ok (some wg) →
      performRequest req env options = .ok (renderWithNames wg none options env.now)) ∧
    (∀ wg, renderWithNames wg none options env.now
      = renderWithNames wg (some []) options env.now) := by
  have hpec : peerEntryContents env options = .ok none := by
    unfold peerEntryContents
    rw [h1]
  have hmpn : morePeerNames env options = .ok none := by
    unfold morePeerNames
    rw [h2]
  refine ⟨rfl, ?_, ?_, ?_⟩
  · intro e he
    have hcore := performRequest_err_core req env options e he
    unfold performRequestCore at hcore
    simp only [hpec, hmpn, peerEntryHashmapStep] at hcore
    cases h4 : scrapeLoop env options (interfacesToHandle options) none with
    | error e4 =>
      simp only [h4, Except.error.injEq] at hcore
      exact hcore ▸ scrapeLoop_error env options _ none e4 h4
    | ok acc =>
      simp only [h4] at hcore
      cases acc with
      | none => exact Except.noConfusion hcore
      | some wg => exact Except.noConfusion hcore
  · intro wg hwg
    unfold performRequest performRequestCore
    simp only [hpec, hmpn, peerEntryHashmapStep, hwg]
    rfl
  · intro wg
    rfl

theorem c7_no_metadata_sources_witness :
    combineTables none none = none ∧
    performRequest ⟨[]⟩
        ⟨fun _ => none, fun _ _ => some [], fun _ _ => some [], 5⟩
        ⟨false, false, false, false, false, none, none, some [lit "all"]⟩
      = .ok (renderWithNames [] none
          ⟨false, false, false, false, false, none, none, some [lit "all"]⟩ 5) :=
  ⟨(c7_no_metadata_sources ⟨[]⟩
      ⟨fun _ => none, fun _ _ => some [], fun _ _ => some [], 5⟩
      ⟨false, false, false, false, false, none, none, some [lit "all"]⟩
      rfl rfl).1,
   (c7_no_metadata_sources ⟨[]⟩
      ⟨fun _ => none, fun _ _ => some [], fun _ _ => some [], 5⟩
      ⟨false, false, false, false, false, none, none, some [lit "all"]⟩
      rfl rfl).2.2.1 [] (by decide)⟩

/-! ## C8: the panic branch -/

/-- C8: when the configured interfaces list is present but empty and the
metadata steps succeed, `perform_request` reaches the unconditional
`panic!()` after the empty loop instead of returning a typed error; for
any non-empty interface list, and for the default `["all"]` used when no
interfaces are configured, the panic branch is unreachable. -/
theorem c8_empty_interfaces_panic (req : Request) (env : Env) (options : Options) :
    (options.interfaces = some [] →
      ∀ (c? : Option Str) (n? : Option (List (Str × Str))) (t? : Option PeerTable),
      peerEntryContents env options = .ok c? →
      morePeerNames env options = .ok n? →
      peerEntryHashmapStep c? = .ok t? →
      performRequest req env options = .panics) ∧
    (∀ l, options.interfaces = some l → l ≠ [] →
      performRequest req env options ≠ .panics) ∧
    (options.interfaces = none → performRequest req env options ≠ .panics) := by
  refine ⟨?_, ?_, ?_⟩
  · intro hi c? n? t? h1 h2 h3
    have hl : interfacesToHandle options = [] := by
      unfold interfacesToHandle
      rw [hi]
    unfold performRequest performRequestCore
    simp only [h1, h2, h3, hl, scrapeLoop]
  · intro l hl hne h
    have hloop := performRequestCore_ok_none_loop env options
      (performRequest_panics_core req env options h)
    have hth : interfacesToHandle options = l := by
      unfold interfacesToHandle
      rw [hl]
    exact scrapeLoop_ne_ok_none env options (interfacesToHandle options) none
      (Or.inl (hth ▸ hne)) hloop
  · intro hi h
    have hloop := performRequestCore_ok_none_loop env options
      (performRequest_panics_core req env options h)
    have hth : interfacesToHandle options = [lit "all"] := by
      unfold interfacesToHandle
      rw [hi]
    have hne : interfacesToHandle options ≠ [] := by
      rw [hth]
      simp
    exact scrapeLoop_ne_ok_none env options (interfacesToHandle options) none
      (Or.inl hne) hloop

theorem c8_empty_interfaces_panic_witness :
    performRequest ⟨[]⟩
        ⟨fun _ => none, fun _ _ => some [], fun _ _ => some [], 0⟩
        ⟨false, false, false, false, false, none, none, some []⟩ = .panics ∧
    performRequest ⟨[]⟩
        ⟨fun _ => none, fun _ _ => some [], fun _ _ => some [], 0⟩
        ⟨false, false, false, false, false, none, none, some [lit "all"]⟩
      ≠ .panics ∧
    performRequest ⟨[]⟩
        ⟨fun _ => none, fun _ _ => some [], fun _ _ => some [], 0⟩
        ⟨false, false, false, false, false, none, none, none⟩ ≠ .panics :=
  ⟨(c8_empty_interfaces_panic ⟨[]⟩
      ⟨fun _ => none, fun _ _ => some [], fun _ _ => some [], 0⟩
      ⟨false, false, false, false, false, none, none, some []⟩).1
      rfl none none none rfl rfl rfl,
   (c8_empty_interfaces_panic ⟨[]⟩
      ⟨fun _ => none, fun _ _ => some [], fun _ _ => some [], 0⟩
      ⟨false, false, false, false, false, none, none, some [lit "all"]⟩).2.1
      [lit "all"] rfl (by decide),
   (c8_empty_interfaces_panic ⟨[]⟩
      ⟨fun _ => none, fun _ _ => some [], fun _ _ => some [], 0⟩
      ⟨false, false, false, false, false, none, none, none⟩).2.2 rfl⟩

/-! ## C4: interface-name injection -/

/-- C4: for every requested interface other than the sentinel `"all"`,
the text handed to the dump parser is exactly the tool's stdout with
every line prefixed by the interface name and a tab; for `"all"` the
stdout is passed through unchanged. -/
theorem c4_interface_injection (iface text : Str) :
    (iface ≠ lit "all" →
      parserInput iface text
        = concatStr ((rustLines text).map (fun l => iface ++ ['\t'] ++ l ++ ['\n']))) ∧
    parserInput (lit "all") text = text := by
  constructor
  · intro h
    rw [parserInput, if_pos h, injectInterface]
    simpa using foldl_inject iface (rustLines text) []
  · rw [parserInput]
    simp

theorem c4_interface_injection_witness :
    parserInput (lit "wg0") (lit "f1\tf2\nf3\tf4\n")
      = concatStr ((rustLines (lit "f1\tf2\nf3\tf4\n")).map
          (fun l => lit "wg0" ++ ['\t'] ++ l ++ ['\n'])) ∧
    parserInput (lit "all") (lit "f1\tf2\nf3\tf4\n") = lit "f1\tf2\nf3\tf4\n" :=
  ⟨(c4_interface_injection (lit "wg0") (lit "f1\tf2\nf3\tf4\n")).1 (by decide),
   (c4_interface_injection (lit "all") (lit "f1\tf2\nf3\tf4\n")).2⟩

/-! ## C10: the request is never inspected -/

/-- C10: `perform_request` never reads the incoming HTTP request — with
the same environment (options, file contents, tool outputs, clock), any
two requests produce the identical outcome. -/
theorem c10_request_never_inspected (req1 req2 : Request) (env : Env)
    (options : Options) :
    performRequest req1 env options = performRequest req2 env options := rfl

/-! ## C6: name-mapping source alone -/

/-- C6: when only the name-mapping source is configured, every entry of
the resolved table is the plain-name variant carrying the mapped display
name, with an empty allowed-IPs field. -/
theorem c6_names_only (m : List (Str × Str)) :
    combineTables none (some m) = some (tableFromNames m) ∧
    ∀ p ∈ tableFromNames m, p.2.public_key = p.1 ∧ p.2.allowed_ips = [] ∧
      ∃ n, p.2.friendly_description = some (.name n) ∧ (p.1, n) ∈ m := by
  refine ⟨rfl, fun p hp => ?_⟩
  rcases mem_extendWithNames [] m p hp with h | ⟨kv, hkv, hpv⟩
  · cases h
  · subst hpv
    exact ⟨rfl, rfl, kv.2, rfl, by simpa using hkv⟩

theorem c6_names_only_witness :
    combineTables none (some [(lit "abc", lit "Router")])
      = some (tableFromNames [(lit "abc", lit "Router")]) ∧
    ((lit "abc", entryFromName (lit "abc") (lit "Router")).2.public_key = lit "abc" ∧
      (lit "abc", entryFromName (lit "abc") (lit "Router")).2.allowed_ips = [] ∧
      ∃ n, (lit "abc", entryFromName (lit "abc") (lit "Router")).2.friendly_description
            = some (.name n) ∧
        ((lit "abc", entryFromName (lit "abc") (lit "Router")).1, n)
          ∈ [(lit "abc", lit "Router")]) :=
  ⟨(c6_names_only [(lit "abc", lit "Router")]).1,
   (c6_names_only [(lit "abc", lit "Router")]).2
     (lit "abc", entryFromName (lit "abc") (lit "Router")) (by decide)⟩

/-! ## C9: combining leaves unmapped keys unchanged -/

/-- C9: combining the two metadata sources leaves every config-derived
entry whose public key does not occur in the name-mapping source exactly
as it was — only mapped keys are replaced. -/
theorem c9_combine_frame (t : PeerTable) (m : List (Str × Str)) (k : Str)
    (h : ∀ kv ∈ m, kv.1 ≠ k) :
    combineTables (some t) (some m) = some (extendWithNames t m) ∧
    lookupKey (extendWithNames t m) k = lookupKey t k :=
  ⟨rfl, lookup_extendWithNames_not_mem t m k h⟩

theorem c9_combine_frame_witness :
    combineTables (some [(lit "K", entryFromName (lit "K") (lit "Alice"))])
        (some [(lit "J", lit "Bob")])
      = some (extendWithNames [(lit "K", entryFromName (lit "K") (lit "Alice"))]
          [(lit "J", lit "Bob")]) ∧
    lookupKey (extendWithNames [(lit "K", entryFromName (lit "K") (lit "Alice"))]
        [(lit "J", lit "Bob")]) (lit "K")
      = lookupKey [(lit "K", entryFromName (lit "K") (lit "Alice"))] (lit "K") :=
  c9_combine_frame [(lit "K", entryFromName (lit "K") (lit "Alice"))]
    [(lit "J", lit "Bob")] (lit "K") (by decide)

/-! ## C1: precedence when a key is in both sources -/

/-- C1 counterexample: a config blob names `KEY1` as `"Alice"` with
allowed-IPs `"10.0.0.0/24"`, and the name-mapping source names `KEY1` as
`"Bob"`.  The combined entry does carry the name `"Bob"`, but its
allowed-IPs field is the empty string — the config-derived allowed-IPs
value is not retained, because `HashMap::extend` replaces the whole
entry. -/
theorem c1_allowed_ips_lost_counterexample :
    peerEntryHashmapTryFrom
        (lit "[Peer]\n# Alice\nPublicKey = KEY1\nAllowedIPs = 10.0.0.0/24\n")
      = .ok [(lit "KEY1",
          ⟨lit "KEY1", lit "10.0.0.0/24", some (.name (lit "Alice"))⟩)] ∧
    serdeStringMap (lit "\x7b\"KEY1\": \"Bob\"\x7d") = some [(lit "KEY1", lit "Bob")] ∧
    combineTables
        (some [(lit "KEY1",
          ⟨lit "KEY1", lit "10.0.0.0/24", some (.name (lit "Alice"))⟩)])
        (some [(lit "KEY1", lit "Bob")])
      = some [(lit "KEY1", ⟨lit "KEY1", [], some (.name (lit "Bob"))⟩)] ∧
    ([] : Str) ≠ lit "10.0.0.0/24" := by
  refine ⟨by decide, by decide, by decide, by decide⟩

/-- C1 (amended): for a public key present in both sources, the combined
entry carries the name-mapping source's plain name as its friendly
description, but its allowed-IPs field is reset to the empty string
rather than retaining the config-derived value, because the extend
replaces the whole `PeerEntry`. -/
theorem c1_mapping_overwrites_amended (t : PeerTable) (m : List (Str × Str))
    (k n : Str) (_hk : hasKey t k = true) (hnd : (m.map Prod.fst).Nodup)
    (hm : (k, n) ∈ m) :
    combineTables (some t) (some m) = some (extendWithNames t m) ∧
    lookupKey (extendWithNames t m) k = some ⟨k, [], some (.name n)⟩ :=
  ⟨rfl, lookup_extendWithNames_mem t m k n hnd hm⟩

theorem c1_mapping_overwrites_witness :
    combineTables
        (some [(lit "K", ⟨lit "K", lit "10.0.0.0/24", some (.name (lit "Alice"))⟩)])
        (some [(lit "K", lit "Bob")])
      = some (extendWithNames
          [(lit "K", ⟨lit "K", lit "10.0.0.0/24", some (.name (lit "Alice"))⟩)]
          [(lit "K", lit "Bob")]) ∧
    lookupKey (extendWithNames
        [(lit "K", ⟨lit "K", lit "10.0.0.0/24", some (.name (lit "Alice"))⟩)]
        [(lit "K", lit "Bob")]) (lit "K")
      = some ⟨lit "K", [], some (.name (lit "Bob"))⟩ :=
  c1_mapping_overwrites_amended
    [(lit "K", ⟨lit "K", lit "10.0.0.0/24", some (.name (lit "Alice"))⟩)]
    [(lit "K", lit "Bob")] (lit "K") (lit "Bob")
    (by decide) (by decide) (by decide)

end WgExporter
